import Mathlib

/-!
Verification of the FEM heat-conduction assembly core (PawelS12/FEM).

The C++ sources `src/Grid/src/FEMSolver.cpp` and `src/Grid/GlobalData.cpp` are
shallowly embedded below.  `double` is modelled as `ℚ` (all arithmetic in the
relevant code paths is field arithmetic; `std::sqrt` is abstracted as a
function parameter `sqrtQ : ℚ → ℚ`, and theorems that depend on the value a
square root takes receive it as a hypothesis).  The headers `Integration.h`,
`Element.h`, `Grid.h` are not part of the available sources, so the Gauss
point/weight tables are modelled from the spec (§4.1) with the irrational
abscissae kept abstract in a `GaussTables` parameter; every theorem below is
proved for an arbitrary table.
-/

namespace FEM

/-- A mesh node: position and boundary-condition flag (`Node.h` interface as
used by `FEMSolver.cpp`: `get_x`, `get_y`, `get_BC`). -/
structure Node where
  x : ℚ
  y : ℚ
  BC : Bool
deriving DecidableEq

/-- An element as consumed by `FEMSolver.cpp`: four nodes in local order and
the local-to-global index mapping `ID` (indices modelled as naturals, per the
spec a global node index in `[0, nodes_num)`). -/
structure Element where
  nodes : Fin 4 → Node
  ID : Fin 4 → ℕ

instance : Inhabited Element := ⟨⟨fun _ => ⟨0, 0, false⟩, fun _ => 0⟩⟩

/-- A 2×2 matrix of doubles, `double J[2][2]` in the source. -/
structure Mat2 where
  a00 : ℚ
  a01 : ℚ
  a10 : ℚ
  a11 : ℚ
deriving DecidableEq

/-- Shape-function derivatives `dN_dxi` (FEMSolver.cpp:35-40 and 79-84). -/
def dN_dxi (eta : ℚ) : Fin 4 → ℚ :=
  ![-(1/4 : ℚ) * (1 - eta), (1/4) * (1 - eta), (1/4) * (1 + eta), -(1/4) * (1 + eta)]

/-- Shape-function derivatives `dN_deta` (FEMSolver.cpp:42-47 and 86-91). -/
def dN_deta (xi : ℚ) : Fin 4 → ℚ :=
  ![-(1/4 : ℚ) * (1 - xi), -(1/4) * (1 + xi), (1/4) * (1 + xi), (1/4) * (1 - xi)]

/-- `FEMSolver::compute_jacobian` (FEMSolver.cpp:34-58), the 4-iteration
accumulation loop written out. -/
def compute_jacobian (e : Element) (xi eta : ℚ) : Mat2 :=
  ⟨dN_dxi eta 0 * (e.nodes 0).x + dN_dxi eta 1 * (e.nodes 1).x +
     dN_dxi eta 2 * (e.nodes 2).x + dN_dxi eta 3 * (e.nodes 3).x,
   dN_deta xi 0 * (e.nodes 0).x + dN_deta xi 1 * (e.nodes 1).x +
     dN_deta xi 2 * (e.nodes 2).x + dN_deta xi 3 * (e.nodes 3).x,
   dN_dxi eta 0 * (e.nodes 0).y + dN_dxi eta 1 * (e.nodes 1).y +
     dN_dxi eta 2 * (e.nodes 2).y + dN_dxi eta 3 * (e.nodes 3).y,
   dN_deta xi 0 * (e.nodes 0).y + dN_deta xi 1 * (e.nodes 1).y +
     dN_deta xi 2 * (e.nodes 2).y + dN_deta xi 3 * (e.nodes 3).y⟩

/-- `FEMSolver::compute_jacobian_determinant` (FEMSolver.cpp:60-62). -/
def compute_jacobian_determinant (J : Mat2) : ℚ :=
  J.a00 * J.a11 - J.a01 * J.a10

/-- The degeneracy threshold `1e-12` of FEMSolver.cpp:67. -/
def degenerate_eps : ℚ := 1 / 1000000000000

/-- `FEMSolver::compute_inverse_jacobian` (FEMSolver.cpp:64-76).  When
`|detJ| < 1e-12` the C++ function returns without writing to `invJ`, leaving
the caller's stack array with whatever it held before; that prior content is
the explicit argument `invJ0` here. -/
def compute_inverse_jacobian (J : Mat2) (invJ0 : Mat2) : Mat2 :=
  let detJ := compute_jacobian_determinant J
  if |detJ| < degenerate_eps then invJ0
  else ⟨J.a11 / detJ, -J.a01 / detJ, -J.a10 / detJ, J.a00 / detJ⟩

/-- `FEMSolver::calculate_H_integrand` (FEMSolver.cpp:78-109).  `invJ0` is the
content the uninitialized local array `double invJ[2][2]` (line 97) happens to
hold before `compute_inverse_jacobian` runs. -/
def calculate_H_integrand (e : Element) (conductivity : ℚ) (i j : Fin 4)
    (xi eta : ℚ) (invJ0 : Mat2) : ℚ :=
  let J := compute_jacobian e xi eta
  let detJ := compute_jacobian_determinant J
  let invJ := compute_inverse_jacobian J invJ0
  let dN_dx : Fin 4 → ℚ := fun k => invJ.a00 * dN_dxi eta k + invJ.a01 * dN_deta xi k
  let dN_dy : Fin 4 → ℚ := fun k => invJ.a10 * dN_dxi eta k + invJ.a11 * dN_deta xi k
  conductivity * (dN_dx i * dN_dx j + dN_dy i * dN_dy j) * detJ

/-- A near-degenerate element: the unit square scaled by `1e-7`.  Its Jacobian
determinant is constant `2.5e-15 < 1e-12`. -/
def tinySquare : Element :=
  ⟨![⟨0, 0, false⟩, ⟨1/10000000, 0, false⟩,
     ⟨1/10000000, 1/10000000, false⟩, ⟨0, 1/10000000, false⟩],
   ![0, 1, 2, 3]⟩

/-- Modelled from the spec: `Integration.h`/`Integration.cpp` are not among
the available sources.  Spec §4.1 fixes the 2-point rule to abscissae
`∓1/√3` with weights `1, 1` and the 4-point rule to the standard
Gauss-Legendre order-4 table.  Those abscissae (and the order-4 weights) are
irrational, so they are carried abstractly in this parameter structure: `g2`
stands for `1/√3`, `p4`/`w4` for the order-4 table.  Every theorem below is
proved for an arbitrary table. -/
structure GaussTables where
  g2 : ℚ
  p4 : Fin 4 → ℚ
  w4 : Fin 4 → ℚ

/-- Modelled from the spec (§4.1): `Integration::get_points`.  Orders other
than 2 and 4 are an `UnsupportedOrder` condition; they are modelled by the
empty table and are never exercised by the embedded code. -/
def get_points (T : GaussTables) : ℕ → List ℚ
  | 2 => [-T.g2, T.g2]
  | 4 => [T.p4 0, T.p4 1, T.p4 2, T.p4 3]
  | _ => []

/-- Modelled from the spec (§4.1): `Integration::get_weights`. -/
def get_weights (T : GaussTables) : ℕ → List ℚ
  | 2 => [1, 1]
  | 4 => [T.w4 0, T.w4 1, T.w4 2, T.w4 3]
  | _ => []

/-- Modelled from the spec (§4.1): `Integration::gauss_integration_2D`, the
tensor-product rule over a general rectangle `[a,b] × [c,d]`, each axis
affinely mapped from `[-1,1]` with the half-width weight factor.  The
accumulation loop is written as a sum of a map. -/
def gauss_integration_2D (T : GaussTables) (f : ℚ → ℚ → ℚ) (n : ℕ)
    (a b c d : ℚ) : ℚ :=
  (((get_points T n).zip (get_weights T n)).map (fun pw1 =>
    (((get_points T n).zip (get_weights T n)).map (fun pw2 =>
      pw1.2 * pw2.2 * ((b - a) / 2) * ((d - c) / 2) *
        f ((a + b) / 2 + (b - a) / 2 * pw1.1)
          ((c + d) / 2 + (d - c) / 2 * pw2.1))).sum)).sum

/-- `FEMSolver::integrate_Hbc_on_edge` (FEMSolver.cpp:202-224): the 2-point
loop accumulating the 2×2 edge block, written as a fold over the zipped
point/weight table.  `sqrtQ` models `std::sqrt`. -/
def integrate_Hbc_on_edge (T : GaussTables) (sqrtQ : ℚ → ℚ)
    (n1 n2 : Node) (alpha : ℚ) : Fin 2 → Fin 2 → ℚ :=
  ((get_points T 2).zip (get_weights T 2)).foldl (fun Hbc pw =>
    let N1 := (1/2 : ℚ) * (1 - pw.1)
    let N2 := (1/2 : ℚ) * (1 + pw.1)
    let dx_dxi := -(1/2 : ℚ) * (n1.x - n2.x)
    let dy_dxi := -(1/2 : ℚ) * (n1.y - n2.y)
    let detJ := sqrtQ (dx_dxi * dx_dxi + dy_dxi * dy_dxi)
    let v := alpha * pw.2 * detJ
    fun i j => Hbc i j + v * (![N1, N2] i) * (![N1, N2] j))
    (fun _ _ => 0)

/-- One iteration of the edge loop of `FEMSolver::calculate_local_Hbc_matrix`
(FEMSolver.cpp:231-246): if both endpoints of edge `(edge, edge+1 mod 4)`
carry the boundary flag, the 2×2 edge block is accumulated into the local 4×4
matrix at the indices `local_indices = {edge, (edge+1)%4}`. -/
def calculate_local_Hbc_step (T : GaussTables) (sqrtQ : ℚ → ℚ) (alpha : ℚ)
    (e : Element) (acc : Fin 4 → Fin 4 → ℚ) (edge : Fin 4) : Fin 4 → Fin 4 → ℚ :=
  let n1 := e.nodes edge
  let n2 := e.nodes (edge + 1)
  if n1.BC && n2.BC then
    let Hbc_edge := integrate_Hbc_on_edge T sqrtQ n1 n2 alpha
    fun p q =>
      acc p q +
        (if p = edge then
          (if q = edge then Hbc_edge 0 0 else if q = edge + 1 then Hbc_edge 0 1 else 0)
         else if p = edge + 1 then
          (if q = edge then Hbc_edge 1 0 else if q = edge + 1 then Hbc_edge 1 1 else 0)
         else 0)
  else acc

/-- `FEMSolver::calculate_local_Hbc_matrix` (FEMSolver.cpp:226-259) for one
element: the four-edge loop starting from the zero 4×4 matrix; the result is
what `element.set_Hbc` stores. -/
def calculate_local_Hbc_matrix (T : GaussTables) (sqrtQ : ℚ → ℚ) (alpha : ℚ)
    (e : Element) : Fin 4 → Fin 4 → ℚ :=
  (List.finRange 4).foldl (calculate_local_Hbc_step T sqrtQ alpha e) (fun _ _ => 0)

/-- One iteration of the edge loop of `FEMSolver::calculate_P_vector`
(FEMSolver.cpp:269-291): for a boundary edge, the 2-point rule accumulates
`q·N1` into entry `edge` and `q·N2` into entry `(edge+1)%4`, with
`q = alpha · ambient_temperature · weight · (L/2)` and `L` the edge length
computed through `std::sqrt`. -/
def calculate_P_step (T : GaussTables) (sqrtQ : ℚ → ℚ) (alpha tot : ℚ)
    (e : Element) (acc : Fin 4 → ℚ) (edge : Fin 4) : Fin 4 → ℚ :=
  let n1 := e.nodes edge
  let n2 := e.nodes (edge + 1)
  if n1.BC && n2.BC then
    let L := sqrtQ ((n2.x - n1.x) ^ 2 + (n2.y - n1.y) ^ 2)
    ((get_points T 2).zip (get_weights T 2)).foldl (fun a pw =>
      let N1 := (1/2 : ℚ) * (1 - pw.1)
      let N2 := (1/2 : ℚ) * (1 + pw.1)
      let detJ := (1/2 : ℚ) * L
      let q := alpha * tot * pw.2 * detJ
      fun p => a p + (if p = edge then q * N1 else 0) + (if p = edge + 1 then q * N2 else 0))
      acc
  else acc

/-- `FEMSolver::calculate_P_vector` (FEMSolver.cpp:261-300) for one element:
the four-edge loop starting from the zero vector; the result is what
`element.set_P` stores. -/
def calculate_P_local (T : GaussTables) (sqrtQ : ℚ → ℚ) (alpha tot : ℚ)
    (e : Element) : Fin 4 → ℚ :=
  (List.finRange 4).foldl (calculate_P_step T sqrtQ alpha tot e) (fun _ => 0)

/-- The quadrature integral assigned to `H[i*4+j]` at FEMSolver.cpp:129-132:
the order-4 2D Gauss integration of `calculate_H_integrand` over
`[-1,1] × [-1,1]`. -/
def H_entry (T : GaussTables) (e : Element) (conductivity : ℚ) (invJ0 : Mat2)
    (i j : Fin 4) : ℚ :=
  gauss_integration_2D T
    (fun xi eta => calculate_H_integrand e conductivity i j xi eta invJ0)
    4 (-1) 1 (-1) 1

/-- The flat length-16 vector `H` built for one element by
`FEMSolver::calculate_Hbc_matrix` (FEMSolver.cpp:116-143): entry `i*4+j` is
the quadrature integral plus the element's stored `Hbc` entry `(i,j)`; row
major, so the nested `(i,j)` fill loop is a flatMap. -/
def local_H_with_Hbc (T : GaussTables) (sqrtQ : ℚ → ℚ) (e : Element)
    (conductivity alpha : ℚ) (invJ0 : Mat2) : List ℚ :=
  (List.finRange 4).flatMap (fun i => (List.finRange 4).map (fun j =>
    H_entry T e conductivity invJ0 i j + calculate_local_Hbc_matrix T sqrtQ alpha e i j))

/-- `FEMSolver::calculate_Hbc_matrix` (FEMSolver.cpp:111-154): clears
`local_H_matrices` and pushes one flat 16-entry local matrix per element, in
element order.  Because of the `clear()` the result depends only on the grid,
not on any previous content of `local_H_matrices`. -/
def calculate_Hbc_matrix (T : GaussTables) (sqrtQ : ℚ → ℚ) (grid : List Element)
    (conductivity alpha : ℚ) (invJ0 : Mat2) : List (List ℚ) :=
  grid.map (fun e => local_H_with_Hbc T sqrtQ e conductivity alpha invJ0)

/-- The state of `local_H_matrices` right after the `FEMSolver` constructor
(FEMSolver.cpp:20-23): one row of length 4 (all zeros) per element. -/
def constructor_local_H_matrices (grid : List Element) : List (List ℚ) :=
  List.replicate grid.length (List.replicate 4 0)

/-- The 16 `(i,j)` iterations of the scatter loops at FEMSolver.cpp:165-173,
in row-major order. -/
def pairs4 : List (Fin 4 × Fin 4) :=
  (List.finRange 4).flatMap (fun i => (List.finRange 4).map (fun j => (i, j)))

/-- The inner double loop of `FEMSolver::aggregate_Hbc_matrix`
(FEMSolver.cpp:165-173) for one element: under the guard
`ID[i] < nodes_num && ID[j] < nodes_num` the value `H_local[i*4+j]` is added
into `H_global[ID[i]][ID[j]]` (an out-of-range index is only reported and the
entry skipped).  The unchecked `H_local[i*4+j]` read of the C++ `vector` is
modelled by `getElem?`; `none` is an out-of-bounds access. -/
def scatter_element (n : ℕ) (e : Element) (Hloc : List ℚ)
    (G : ℕ → ℕ → ℚ) : Option (ℕ → ℕ → ℚ) :=
  pairs4.foldlM (fun G2 ij =>
    if e.ID ij.1 < n ∧ e.ID ij.2 < n then
      match Hloc[4 * ij.1.val + ij.2.val]? with
      | some v => some (fun r c => G2 r c + if r = e.ID ij.1 ∧ c = e.ID ij.2 then v else 0)
      | none => none
    else some G2) G

/-- The element loop of `FEMSolver::aggregate_Hbc_matrix`
(FEMSolver.cpp:160-174): at index `elem_idx` the row
`local_H_matrices[elem_idx]` is read unchecked; if the list of local matrices
is exhausted that read is out of bounds (`none`). -/
def aggregate_Hbc_go (n : ℕ) :
    List Element → List (List ℚ) → (ℕ → ℕ → ℚ) → Option (ℕ → ℕ → ℚ)
  | [], _, G => some G
  | _ :: _, [], _ => none
  | e :: es, Hl :: Hls, G => (scatter_element n e Hl G).bind (aggregate_Hbc_go n es Hls)

/-- `FEMSolver::aggregate_Hbc_matrix` (FEMSolver.cpp:156-200): `H_global` is
reset to the zero `nodes_num × nodes_num` matrix and every element's local
matrix is scattered through its `ID` mapping.  The trailing file/console dump
is a reporting side effect and is not modelled. -/
def aggregate_Hbc_matrix (grid : List Element) (locals : List (List ℚ))
    (n : ℕ) : Option (ℕ → ℕ → ℚ) :=
  aggregate_Hbc_go n grid locals (fun _ _ => 0)

/-- `FEMSolver::aggregate_P_vector` (FEMSolver.cpp:302-337): `P_global` is
reset to zero and each element's stored `P` vector (the `Plocs` argument, set
by `calculate_P_vector`) is scattered; entries with `ID[i] >= nodes_num` are
reported and skipped. -/
def aggregate_P_vector (grid : List Element) (Plocs : Element → Fin 4 → ℚ)
    (n : ℕ) : ℕ → ℚ :=
  grid.foldl (fun P e =>
    (List.finRange 4).foldl (fun P2 i =>
      if e.ID i < n then (fun r => P2 r + if r = e.ID i then Plocs e i else 0) else P2) P)
    (fun _ => 0)

/-- An element of `GlobalData`'s derived element list: four coordinate pairs
(`Elem4` constructed at GlobalData.cpp:106). -/
structure Elem4 where
  n1 : ℚ × ℚ
  n2 : ℚ × ℚ
  n3 : ℚ × ℚ
  n4 : ℚ × ℚ
deriving DecidableEq

/-- The member state of `GlobalData` touched by `read_file`
(GlobalData.cpp): the fourteen scalar parameters in file order, the raw node
coordinates and the derived element list. -/
structure GlobalData where
  simulation_time : ℚ
  simulation_step_time : ℚ
  conductivity : ℚ
  alfa : ℚ
  tot : ℚ
  initial_temp : ℚ
  density : ℚ
  specific_heat : ℚ
  nN : ℚ
  nE : ℚ
  nH : ℚ
  nW : ℚ
  H : ℚ
  W : ℚ
  nodes_xy : List (ℚ × ℚ)
  elements : List Elem4
deriving DecidableEq

/-- A fresh `GlobalData` object: every scalar value-initialized to zero, no
nodes, no elements. -/
def GlobalData.init : GlobalData :=
  ⟨0, 0, 0, 0, 0, 0, 0, 0, 0, 0, 0, 0, 0, 0, [], []⟩

/-- The chained extraction `dataFile >> simulation_time >> ... >> W`
(GlobalData.cpp:27-28) over the file's token stream: the fourteen scalar
members receive the fourteen tokens in order; once the stream is exhausted
the remaining extractions fail and (C++11 semantics) write `0`, which is
`List.getD`'s default.  The other members are untouched.  The `Bool` is the
chain's success, i.e. whether all fourteen tokens were present. -/
def read_scalars (g : GlobalData) (ts : List ℚ) : GlobalData × Bool :=
  (⟨ts.getD 0 0, ts.getD 1 0, ts.getD 2 0, ts.getD 3 0, ts.getD 4 0, ts.getD 5 0,
    ts.getD 6 0, ts.getD 7 0, ts.getD 8 0, ts.getD 9 0, ts.getD 10 0, ts.getD 11 0,
    ts.getD 12 0, ts.getD 13 0, g.nodes_xy, g.elements⟩,
   decide (14 ≤ ts.length))

/-- The compound positivity check at GlobalData.cpp:35-36.  Note that `tot`
(ambient temperature) and `initial_temp` do not appear in it. -/
def scalar_data_invalid (g : GlobalData) : Bool :=
  decide (g.simulation_step_time ≤ 0) || decide (g.conductivity ≤ 0) ||
  decide (g.alfa ≤ 0) || decide (g.density ≤ 0) || decide (g.specific_heat ≤ 0) ||
  decide (g.nN ≤ 0) || decide (g.nE ≤ 0) || decide (g.nH ≤ 0) ||
  decide (g.nW ≤ 0) || decide (g.H ≤ 0) || decide (g.W ≤ 0)

/-- The node-reading loop of GlobalData.cpp:48-54.  A line is modelled as
`some (x, y)` when `istringstream(line) >> x >> y` succeeds and `none` when
it fails; a failing line throws, so reading stops there with the nodes read
so far already appended.  The `Bool` is `true` when all lines parsed. -/
def read_nodes (g : GlobalData) : List (Option (ℚ × ℚ)) → GlobalData × Bool
  | [] => (g, true)
  | some xy :: rest => read_nodes { g with nodes_xy := g.nodes_xy ++ [xy] } rest
  | none :: _ => (g, false)

/-- The `size_t` modulus of the target platform (64-bit). -/
def USIZE : ℕ := 2 ^ 64

/-- The loop of `GlobalData::create_elements_from_nodes`
(GlobalData.cpp:104-109): `i` starts at 0 and advances by 4 while
`i < bound`, reading `nodes_xy[i] .. nodes_xy[i+3]` unchecked; `none` is an
out-of-bounds `vector` access. -/
def create_go (nodes : List (ℚ × ℚ)) (bound : ℕ) (i : ℕ) : Option (List Elem4) :=
  if i < bound then
    match nodes[i]?, nodes[i + 1]?, nodes[i + 2]?, nodes[i + 3]? with
    | some a, some b, some c, some d =>
      (create_go nodes bound (i + 4)).map (fun rest => Elem4.mk a b c d :: rest)
    | _, _, _, _ => none
  else some []
termination_by bound - i
decreasing_by omega

/-- `GlobalData::create_elements_from_nodes` (GlobalData.cpp:104-109).  The
loop bound is the `size_t` expression `nodes_xy.size() - 3`, which wraps
modulo `2^64` when fewer than three nodes were read. -/
def create_elements_from_nodes (nodes : List (ℚ × ℚ)) : Option (List Elem4) :=
  create_go nodes ((nodes.length + USIZE - 3) % USIZE) 0

/-- `GlobalData::read_file` (GlobalData.cpp:20-61).  The two files are
modelled by their parsed contents (`dataTokens` for `data.txt`, `coordLines`
for `XY_coordinates.txt`); opening failures are not modelled.  A thrown
`runtime_error` is caught at GlobalData.cpp:58-60, which only prints, so the
function returns the state as already mutated together with the error flag
`true`.  An out-of-bounds access inside `create_elements_from_nodes` is not
an exception and not caught: it is the overall `none`. -/
def read_file (g : GlobalData) (dataTokens : List ℚ)
    (coordLines : List (Option (ℚ × ℚ))) : Option (GlobalData × Bool) :=
  let r1 := read_scalars g dataTokens
  if !r1.2 then some (r1.1, true)
  else if r1.1.simulation_time < 0 then some (r1.1, true)
  else if scalar_data_invalid r1.1 then some (r1.1, true)
  else
    let r2 := read_nodes r1.1 coordLines
    if !r2.2 then some (r2.1, true)
    else
      match create_elements_from_nodes r2.1.nodes_xy with
      | none => none
      | some es => some ({ r2.1 with elements := r2.1.elements ++ es }, false)

/-- The spec's integrand for the local conductivity matrix, written from the
spec's words (§4.2 and §4.3): `J[0][0] = Σ dN/dxi·x_k` etc. over the
element's four nodes, `detJ = J00·J11 - J01·J10`, the inverse by the standard
2×2 adjugate over `detJ`, the physical derivatives by the fixed row
contraction `dN/dx = invJ00·dN/dxi + invJ01·dN/deta`,
`dN/dy = invJ10·dN/dxi + invJ11·dN/deta`, and the integrand
`conductivity * (dN_i/dx · dN_j/dx + dN_i/dy · dN_j/dy) * detJ(xi, eta)`. -/
def spec_conductivity_integrand (e : Element) (conductivity : ℚ) (i j : Fin 4)
    (xi eta : ℚ) : ℚ :=
  let J00 := ∑ k : Fin 4, dN_dxi eta k * (e.nodes k).x
  let J01 := ∑ k : Fin 4, dN_deta xi k * (e.nodes k).x
  let J10 := ∑ k : Fin 4, dN_dxi eta k * (e.nodes k).y
  let J11 := ∑ k : Fin 4, dN_deta xi k * (e.nodes k).y
  let detJ := J00 * J11 - J01 * J10
  let invJ00 := J11 / detJ
  let invJ01 := -J01 / detJ
  let invJ10 := -J10 / detJ
  let invJ11 := J00 / detJ
  let dNdx : Fin 4 → ℚ := fun k => invJ00 * dN_dxi eta k + invJ01 * dN_deta xi k
  let dNdy : Fin 4 → ℚ := fun k => invJ10 * dN_dxi eta k + invJ11 * dN_deta xi k
  conductivity * (dNdx i * dNdx j + dNdy i * dNdy j) * detJ

/-- The total contribution of one element (local matrix `Hloc`) to global
entry `(r, c)` under the per-entry range guard of FEMSolver.cpp:167. -/
def elem_contrib (n : ℕ) (e : Element) (Hloc : List ℚ) (r c : ℕ) : ℚ :=
  ∑ i : Fin 4, ∑ j : Fin 4,
    if e.ID i < n ∧ e.ID j < n ∧ r = e.ID i ∧ c = e.ID j then
      Hloc.getD (4 * i.val + j.val) 0
    else 0

/-- The total contribution of one element (local vector `Pl`) to global load
entry `r` under the range guard of FEMSolver.cpp:311. -/
def P_contrib (n : ℕ) (e : Element) (Pl : Fin 4 → ℚ) (r : ℕ) : ℚ :=
  ∑ i : Fin 4, if e.ID i < n ∧ r = e.ID i then Pl i else 0

/-- Concrete fixture: the unit square element, no boundary flags set. -/
def unitSquareNoBC : Element :=
  ⟨![⟨0, 0, false⟩, ⟨1, 0, false⟩, ⟨1, 1, false⟩, ⟨0, 1, false⟩], ![0, 1, 2, 3]⟩

/-- Concrete fixture: the unit square element with the bottom edge's two
nodes flagged as boundary. -/
def unitSquareBottomBC : Element :=
  ⟨![⟨0, 0, true⟩, ⟨1, 0, true⟩, ⟨1, 1, false⟩, ⟨0, 1, false⟩], ![0, 1, 2, 3]⟩

/-- Concrete fixture: a Gauss table instance for witnesses (the theorems hold
for every table). -/
def trivialTables : GaussTables := ⟨0, fun _ => 0, fun _ => 1⟩

/-- Concrete fixture: a square-root stub valid at 1 (used by witnesses whose
edges have length 1). -/
def sqrt_one : ℚ → ℚ := fun q => if q = 1 then 1 else 0

/-- Concrete fixture: a parsed `XY_coordinates.txt` with four well-formed
lines, the corners of the unit square. -/
def goodCoords4 : List (Option (ℚ × ℚ)) :=
  [some (0, 0), some (1, 0), some (1, 1), some (0, 1)]

lemma finRange_four : List.finRange 4 = [0, 1, 2, 3] := by decide

lemma fin4_add_one_ne : ∀ edge : Fin 4, edge + 1 ≠ edge := by decide

/-- C2: at the near-degenerate element `tinySquare` the Jacobian determinant
at quadrature point `(0, 0)` is below the `1e-12` threshold, yet
`calculate_H_integrand` does not return a zero contribution: it computes one
from the content the uninitialized `invJ` array happened to hold (here
`⟨1,0,0,1⟩`), and that value even changes with that uninitialized content.
The quadrature-point contribution is therefore not skipped, although
`compute_inverse_jacobian` prints that the element is being skipped. -/
theorem degenerate_point_contribution_not_skipped :
    |compute_jacobian_determinant (compute_jacobian tinySquare 0 0)| < degenerate_eps ∧
    calculate_H_integrand tinySquare 1 0 0 0 0 ⟨1, 0, 0, 1⟩ ≠ 0 ∧
    calculate_H_integrand tinySquare 1 0 0 0 0 ⟨1, 0, 0, 1⟩ ≠
      calculate_H_integrand tinySquare 1 0 0 0 0 ⟨2, 0, 0, 2⟩ := by
  refine ⟨?_, ?_, ?_⟩ <;>
    norm_num [calculate_H_integrand, compute_inverse_jacobian, compute_jacobian,
      compute_jacobian_determinant, dN_dxi, dN_deta, degenerate_eps, tinySquare,
      Matrix.cons_val_zero, Matrix.cons_val_one, Matrix.head_cons, Matrix.cons_val_two,
      Matrix.cons_val_three, Matrix.tail_cons, abs]

/-- C3: an edge whose endpoints do not both carry the boundary flag leaves
both the local boundary-convection accumulator and the local load accumulator
unchanged, and for an element with all four boundary flags false the local
Hbc matrix from `calculate_local_Hbc_matrix` and the local load vector from
`calculate_P_vector` are exactly zero in every entry. -/
theorem edge_contributes_iff_both_flags :
    (∀ (T : GaussTables) (sqrtQ : ℚ → ℚ) (alpha : ℚ) (e : Element) (edge : Fin 4)
      (acc : Fin 4 → Fin 4 → ℚ),
      ¬((e.nodes edge).BC && (e.nodes (edge + 1)).BC) = true →
      calculate_local_Hbc_step T sqrtQ alpha e acc edge = acc) ∧
    (∀ (T : GaussTables) (sqrtQ : ℚ → ℚ) (alpha tot : ℚ) (e : Element) (edge : Fin 4)
      (accP : Fin 4 → ℚ),
      ¬((e.nodes edge).BC && (e.nodes (edge + 1)).BC) = true →
      calculate_P_step T sqrtQ alpha tot e accP edge = accP) ∧
    (∀ (T : GaussTables) (sqrtQ : ℚ → ℚ) (alpha tot : ℚ) (e : Element),
      (∀ k : Fin 4, (e.nodes k).BC = false) →
      (∀ i j, calculate_local_Hbc_matrix T sqrtQ alpha e i j = 0) ∧
      (∀ i, calculate_P_local T sqrtQ alpha tot e i = 0)) := by
  refine ⟨?_, ?_, ?_⟩
  · intro T sqrtQ alpha e edge acc h
    simp only [calculate_local_Hbc_step]
    rw [if_neg h]
  · intro T sqrtQ alpha tot e edge accP h
    simp only [calculate_P_step]
    rw [if_neg h]
  · intro T sqrtQ alpha tot e h
    constructor
    · intro i j
      simp [calculate_local_Hbc_matrix, calculate_local_Hbc_step, finRange_four, h]
    · intro i
      simp [calculate_P_local, calculate_P_step, finRange_four, h]

theorem edge_contributes_iff_both_flags_witness :
    calculate_local_Hbc_step trivialTables sqrt_one 1 unitSquareNoBC (fun _ _ => 0) 0 =
      (fun _ _ => 0) ∧
    calculate_P_step trivialTables sqrt_one 1 1 unitSquareNoBC (fun _ => 0) 0 = (fun _ => 0) ∧
    ((∀ i j, calculate_local_Hbc_matrix trivialTables sqrt_one 1 unitSquareNoBC i j = 0) ∧
     (∀ i, calculate_P_local trivialTables sqrt_one 1 1 unitSquareNoBC i = 0)) :=
  ⟨edge_contributes_iff_both_flags.1 _ _ _ _ _ _ (by decide),
   edge_contributes_iff_both_flags.2.1 _ _ _ _ _ _ _ (by decide),
   edge_contributes_iff_both_flags.2.2 _ _ _ _ _ (by decide)⟩

/-- C5: for a boundary edge `(edge, edge+1)` the load contribution that
`calculate_P_vector`'s edge loop adds to each of the edge's two endpoint
entries is exactly `alpha · ambient_temperature · L / 2`, where `L` is the
edge length the code obtains from `std::sqrt`; the 2-point rule sums the two
linear shape functions to 1, so this holds for any table abscissa. -/
theorem P_edge_contribution (T : GaussTables) (sqrtQ : ℚ → ℚ) (alpha tot : ℚ)
    (e : Element) (edge : Fin 4) (acc : Fin 4 → ℚ) (L : ℚ)
    (hBC1 : (e.nodes edge).BC = true) (hBC2 : (e.nodes (edge + 1)).BC = true)
    (hL : sqrtQ (((e.nodes (edge + 1)).x - (e.nodes edge).x) ^ 2 +
                 ((e.nodes (edge + 1)).y - (e.nodes edge).y) ^ 2) = L) :
    calculate_P_step T sqrtQ alpha tot e acc edge edge = acc edge + alpha * tot * L / 2 ∧
    calculate_P_step T sqrtQ alpha tot e acc edge (edge + 1) =
      acc (edge + 1) + alpha * tot * L / 2 := by
  have hg : ((get_points T 2).zip (get_weights T 2)) = [(-T.g2, 1), (T.g2, 1)] := rfl
  have hne : edge ≠ edge + 1 := Ne.symm (fin4_add_one_ne edge)
  simp only [calculate_P_step, hBC1, hBC2, Bool.and_self, if_true, hg, List.foldl, hL]
  constructor
  · simp only [if_pos rfl, if_neg hne]
    ring
  · simp only [if_pos rfl, if_neg (fin4_add_one_ne edge)]
    ring

theorem P_edge_contribution_witness :
    calculate_P_step trivialTables sqrt_one 2 3 unitSquareBottomBC (fun _ => 0) 0 0 =
      (fun _ : Fin 4 => (0 : ℚ)) 0 + 2 * 3 * 1 / 2 ∧
    calculate_P_step trivialTables sqrt_one 2 3 unitSquareBottomBC (fun _ => 0) 0 (0 + 1) =
      (fun _ : Fin 4 => (0 : ℚ)) (0 + 1) + 2 * 3 * 1 / 2 :=
  P_edge_contribution trivialTables sqrt_one 2 3 unitSquareBottomBC 0 (fun _ => 0) 1
    (by decide) (by decide)
    (by norm_num [unitSquareBottomBC, sqrt_one, Matrix.cons_val_zero, Matrix.cons_val_one,
      Matrix.head_cons])

lemma gauss2D_unit_interval (T : GaussTables) (f : ℚ → ℚ → ℚ) (n : ℕ) :
    gauss_integration_2D T f n (-1) 1 (-1) 1 =
      (((get_points T n).zip (get_weights T n)).map (fun pw1 =>
        (((get_points T n).zip (get_weights T n)).map (fun pw2 =>
          pw1.2 * pw2.2 * f pw1.1 pw2.1)).sum)).sum := by
  simp only [gauss_integration_2D]
  congr 1
  apply List.map_congr_left
  intro pw1 _
  congr 1
  apply List.map_congr_left
  intro pw2 _
  norm_num

lemma gauss2D_congr_unit (T : GaussTables) (f g : ℚ → ℚ → ℚ)
    (h : ∀ p ∈ get_points T 4, ∀ q ∈ get_points T 4, f p q = g p q) :
    gauss_integration_2D T f 4 (-1) 1 (-1) 1 = gauss_integration_2D T g 4 (-1) 1 (-1) 1 := by
  rw [gauss2D_unit_interval, gauss2D_unit_interval]
  congr 1
  apply List.map_congr_left
  intro pw1 h1
  congr 1
  apply List.map_congr_left
  intro pw2 h2
  rw [h _ (List.of_mem_zip h1).1 _ (List.of_mem_zip h2).1]

lemma H_integrand_eq_spec (e : Element) (k : ℚ) (i j : Fin 4) (xi eta : ℚ) (invJ0 : Mat2)
    (h : ¬ |compute_jacobian_determinant (compute_jacobian e xi eta)| < degenerate_eps) :
    calculate_H_integrand e k i j xi eta invJ0 = spec_conductivity_integrand e k i j xi eta := by
  simp only [calculate_H_integrand, compute_inverse_jacobian, spec_conductivity_integrand,
    Fin.sum_univ_four]
  rw [if_neg h]
  simp only [compute_jacobian, compute_jacobian_determinant]

lemma calculate_Hbc_matrix_getD (T : GaussTables) (sqrtQ : ℚ → ℚ) (grid : List Element)
    (k alpha : ℚ) (invJ0 : Mat2) (m : ℕ) (hm : m < grid.length) :
    (calculate_Hbc_matrix T sqrtQ grid k alpha invJ0).getD m [] =
      local_H_with_Hbc T sqrtQ (grid.getD m default) k alpha invJ0 := by
  simp [calculate_Hbc_matrix, List.getD_eq_getElem?_getD, List.getElem?_map,
    List.getElem?_eq_getElem hm]

lemma local_H_getD (T : GaussTables) (sqrtQ : ℚ → ℚ) (e : Element)
    (k alpha : ℚ) (invJ0 : Mat2) (i j : Fin 4) :
    (local_H_with_Hbc T sqrtQ e k alpha invJ0).getD (4 * i.val + j.val) 0 =
      H_entry T e k invJ0 i j + calculate_local_Hbc_matrix T sqrtQ alpha e i j := by
  fin_cases i <;> fin_cases j <;> rfl

/-- C1: for every element (index `m` of the grid) and every pair of local
indices, the value stored by `calculate_Hbc_matrix` at flat position `i*4+j`
is the order-4 2D Gauss quadrature over `[-1,1] × [-1,1]` of the spec's
integrand (conductivity times the dot product of physical shape-function
gradients times `detJ`, with the fixed row contraction through the inverse
Jacobian), plus the element's boundary-convection entry `(i, j)` — provided
no quadrature point of the element is degenerate, so that the inverse
Jacobian the spec formula divides by is the one the code computes. -/
theorem Hbc_matrix_entry_quadrature (T : GaussTables) (sqrtQ : ℚ → ℚ)
    (grid : List Element) (k alpha : ℚ) (invJ0 : Mat2) (m : ℕ)
    (hm : m < grid.length) (i j : Fin 4)
    (hdeg : ∀ p ∈ get_points T 4, ∀ q ∈ get_points T 4,
      ¬ |compute_jacobian_determinant (compute_jacobian (grid.getD m default) p q)| <
        degenerate_eps) :
    ((calculate_Hbc_matrix T sqrtQ grid k alpha invJ0).getD m []).getD (4 * i.val + j.val) 0 =
      gauss_integration_2D T (spec_conductivity_integrand (grid.getD m default) k i j)
          4 (-1) 1 (-1) 1 +
        calculate_local_Hbc_matrix T sqrtQ alpha (grid.getD m default) i j := by
  rw [calculate_Hbc_matrix_getD T sqrtQ grid k alpha invJ0 m hm, local_H_getD]
  congr 1
  exact gauss2D_congr_unit T _ _ (fun p hp q hq =>
    H_integrand_eq_spec _ _ _ _ _ _ _ (hdeg p hp q hq))

theorem Hbc_matrix_entry_quadrature_witness :
    ((calculate_Hbc_matrix trivialTables sqrt_one [unitSquareNoBC] 1 1 ⟨0, 0, 0, 0⟩).getD 0 []).getD
        (4 * (1 : Fin 4).val + (2 : Fin 4).val) 0 =
      gauss_integration_2D trivialTables
          (spec_conductivity_integrand (([unitSquareNoBC] : List Element).getD 0 default) 1 1 2)
          4 (-1) 1 (-1) 1 +
        calculate_local_Hbc_matrix trivialTables sqrt_one 1
          (([unitSquareNoBC] : List Element).getD 0 default) 1 2 :=
  Hbc_matrix_entry_quadrature trivialTables sqrt_one [unitSquareNoBC] 1 1 ⟨0, 0, 0, 0⟩ 0
    (by norm_num) 1 2 (by
      intro p hp q hq
      simp only [get_points, trivialTables, List.mem_cons, List.not_mem_nil, or_false,
        or_self] at hp hq
      subst hp
      subst hq
      norm_num [compute_jacobian, compute_jacobian_determinant, dN_dxi, dN_deta,
        unitSquareNoBC, degenerate_eps, Matrix.cons_val_zero, Matrix.cons_val_one,
        Matrix.head_cons, Matrix.cons_val_two, Matrix.cons_val_three, Matrix.tail_cons, abs])

lemma pairs4_len : ∀ ij ∈ pairs4, 4 * (ij.1 : Fin 4).val + ij.2.val < 16 := by decide

lemma pairs4_eq : pairs4 = [(0, 0), (0, 1), (0, 2), (0, 3), (1, 0), (1, 1), (1, 2), (1, 3),
    (2, 0), (2, 1), (2, 2), (2, 3), (3, 0), (3, 1), (3, 2), (3, 3)] := by decide

lemma scatter_fold_some (n : ℕ) (e : Element) (Hloc : List ℚ) :
    ∀ (l : List (Fin 4 × Fin 4)) (G : ℕ → ℕ → ℚ),
      (∀ ij ∈ l, 4 * ij.1.val + ij.2.val < Hloc.length) →
      (l.foldlM (fun G2 ij =>
        if e.ID ij.1 < n ∧ e.ID ij.2 < n then
          match Hloc[4 * ij.1.val + ij.2.val]? with
          | some v => some (fun r c => G2 r c + if r = e.ID ij.1 ∧ c = e.ID ij.2 then v else 0)
          | none => none
        else some G2) G) =
      some (fun r c => G r c +
        (l.map (fun ij =>
          if e.ID ij.1 < n ∧ e.ID ij.2 < n ∧ r = e.ID ij.1 ∧ c = e.ID ij.2 then
            Hloc.getD (4 * ij.1.val + ij.2.val) 0
          else 0)).sum) := by
  intro l
  induction l with
  | nil =>
    intro G _
    simp only [List.foldlM, List.map_nil, List.sum_nil, add_zero, pure]
  | cons ij l ih =>
    intro G hlen
    have hidx : 4 * ij.1.val + ij.2.val < Hloc.length := hlen ij (by simp)
    have hget : Hloc[4 * ij.1.val + ij.2.val]? = some (Hloc.getD (4 * ij.1.val + ij.2.val) 0) := by
      rw [List.getElem?_eq_getElem hidx, List.getD_eq_getElem?_getD,
        List.getElem?_eq_getElem hidx]
      rfl
    rw [List.foldlM_cons]
    by_cases hij : e.ID ij.1 < n ∧ e.ID ij.2 < n
    · rw [if_pos hij, hget]
      show (l.foldlM _ _) = _
      rw [ih _ (fun p hp => hlen p (by simp [hp]))]
      congr 1
      funext r c
      simp only [List.map_cons, List.sum_cons, eq_true hij.1, eq_true hij.2, true_and]
      ring
    · rw [if_neg hij]
      show (l.foldlM _ _) = _
      rw [ih _ (fun p hp => hlen p (by simp [hp]))]
      congr 1
      funext r c
      have hz : (if e.ID ij.1 < n ∧ e.ID ij.2 < n ∧ r = e.ID ij.1 ∧ c = e.ID ij.2 then
          Hloc.getD (4 * ij.1.val + ij.2.val) 0 else 0) = 0 :=
        if_neg (fun h => hij ⟨h.1, h.2.1⟩)
      simp only [List.map_cons, List.sum_cons, hz, zero_add]

lemma elem_contrib_eq_list (n : ℕ) (e : Element) (Hloc : List ℚ) (r c : ℕ) :
    elem_contrib n e Hloc r c =
      (pairs4.map (fun ij =>
        if e.ID ij.1 < n ∧ e.ID ij.2 < n ∧ r = e.ID ij.1 ∧ c = e.ID ij.2 then
          Hloc.getD (4 * ij.1.val + ij.2.val) 0
        else 0)).sum := by
  rw [pairs4_eq, elem_contrib]
  simp only [Fin.sum_univ_four, List.map_cons, List.map_nil, List.sum_cons, List.sum_nil]
  ring

lemma scatter_element_some (n : ℕ) (e : Element) (Hloc : List ℚ) (G : ℕ → ℕ → ℚ)
    (h : Hloc.length = 16) :
    scatter_element n e Hloc G = some (fun r c => G r c + elem_contrib n e Hloc r c) := by
  rw [scatter_element, scatter_fold_some n e Hloc pairs4 G (by rw [h]; exact pairs4_len)]
  congr 1
  funext r c
  rw [elem_contrib_eq_list]

lemma aggregate_go_some (n : ℕ) (grid : List Element) :
    ∀ (locals : List (List ℚ)) (G : ℕ → ℕ → ℚ),
      grid.length ≤ locals.length → (∀ l ∈ locals, l.length = 16) →
      aggregate_Hbc_go n grid locals G =
        some (fun r c => G r c +
          ((grid.zip locals).map (fun p => elem_contrib n p.1 p.2 r c)).sum) := by
  induction grid with
  | nil =>
    intro locals G _ _
    simp only [aggregate_Hbc_go, List.zip_nil_left, List.map_nil, List.sum_nil, add_zero]
  | cons e es ih =>
    intro locals G h h16
    cases locals with
    | nil => simp at h
    | cons Hl Hls =>
      rw [aggregate_Hbc_go, scatter_element_some n e Hl G (h16 Hl (by simp)),
        Option.some_bind, ih Hls _ (by simpa using h) (fun l hl => h16 l (by simp [hl]))]
      congr 1
      funext r c
      simp only [List.zip_cons_cons, List.map_cons, List.sum_cons]
      ring

lemma aggregate_Hbc_some (grid : List Element) (locals : List (List ℚ)) (n : ℕ)
    (hlen : grid.length ≤ locals.length) (h16 : ∀ l ∈ locals, l.length = 16) :
    aggregate_Hbc_matrix grid locals n =
      some (fun r c => ((grid.zip locals).map (fun p => elem_contrib n p.1 p.2 r c)).sum) := by
  rw [aggregate_Hbc_matrix, aggregate_go_some n grid locals _ hlen h16]
  congr 1
  funext r c
  simp

lemma P_scatter_fold (n : ℕ) (e : Element) (Plocs : Element → Fin 4 → ℚ) :
    ∀ (l : List (Fin 4)) (P : ℕ → ℚ),
      (l.foldl (fun P2 i =>
        if e.ID i < n then (fun r => P2 r + if r = e.ID i then Plocs e i else 0) else P2) P) =
      fun r => P r + (l.map (fun i => if e.ID i < n ∧ r = e.ID i then Plocs e i else 0)).sum := by
  intro l
  induction l with
  | nil =>
    intro P
    funext r
    simp
  | cons i l ih =>
    intro P
    rw [List.foldl_cons]
    by_cases hi : e.ID i < n
    · rw [if_pos hi, ih]
      funext r
      simp only [List.map_cons, List.sum_cons, eq_true hi, true_and]
      ring
    · rw [if_neg hi, ih]
      funext r
      have hz : (if e.ID i < n ∧ r = e.ID i then Plocs e i else 0) = 0 :=
        if_neg (fun h => hi h.1)
      simp only [List.map_cons, List.sum_cons, hz, zero_add]

lemma P_contrib_eq_list (n : ℕ) (e : Element) (Pl : Fin 4 → ℚ) (r : ℕ) :
    P_contrib n e Pl r =
      ((List.finRange 4).map (fun i => if e.ID i < n ∧ r = e.ID i then Pl i else 0)).sum := by
  rw [finRange_four, P_contrib]
  simp only [Fin.sum_univ_four, List.map_cons, List.map_nil, List.sum_cons, List.sum_nil]
  ring

lemma aggregate_P_eq (grid : List Element) (Plocs : Element → Fin 4 → ℚ) (n : ℕ) :
    aggregate_P_vector grid Plocs n =
      fun r => (grid.map (fun e => P_contrib n e (Plocs e) r)).sum := by
  rw [aggregate_P_vector]
  suffices h : ∀ P : ℕ → ℚ,
      (grid.foldl (fun P e =>
        (List.finRange 4).foldl (fun P2 i =>
          if e.ID i < n then (fun r => P2 r + if r = e.ID i then Plocs e i else 0) else P2) P)
        P) =
      fun r => P r + (grid.map (fun e => P_contrib n e (Plocs e) r)).sum by
    rw [h]
    funext r
    simp
  induction grid with
  | nil =>
    intro P
    funext r
    simp
  | cons e es ih =>
    intro P
    rw [List.foldl_cons, P_scatter_fold, ih]
    funext r
    simp only [List.map_cons, List.sum_cons, P_contrib_eq_list]
    ring

/-- C4: the assembled global matrix exists (no out-of-bounds read once every
local matrix has its 16 entries) and each of its entries is the sum, over all
elements, of exactly those local entries whose two mapped indices are in
range and hit the entry — so an out-of-range `ID` kills only the scatter
entries that use it, and every other entry of the same element and of all
other elements is still added; likewise for the global load vector. -/
theorem aggregate_skips_only_out_of_range_entries :
    (∀ (grid : List Element) (locals : List (List ℚ)) (n : ℕ),
      grid.length ≤ locals.length → (∀ l ∈ locals, l.length = 16) →
      ∃ G, aggregate_Hbc_matrix grid locals n = some G ∧
        ∀ r c, G r c = ((grid.zip locals).map (fun p => elem_contrib n p.1 p.2 r c)).sum) ∧
    (∀ (grid : List Element) (Plocs : Element → Fin 4 → ℚ) (n r : ℕ),
      aggregate_P_vector grid Plocs n r =
        (grid.map (fun e => P_contrib n e (Plocs e) r)).sum) :=
  ⟨fun grid locals n h1 h2 =>
    ⟨_, aggregate_Hbc_some grid locals n h1 h2, fun _ _ => rfl⟩,
   fun grid Plocs n r => by rw [aggregate_P_eq]⟩

theorem aggregate_skips_only_out_of_range_entries_witness :
    (∃ G, aggregate_Hbc_matrix [unitSquareNoBC] [List.replicate 16 (1 : ℚ)] 4 = some G ∧
      ∀ r c, G r c = (([unitSquareNoBC].zip [List.replicate 16 (1 : ℚ)]).map
        (fun p => elem_contrib 4 p.1 p.2 r c)).sum) ∧
    aggregate_P_vector [unitSquareNoBC] (fun _ _ => 1) 4 0 =
      ([unitSquareNoBC].map (fun e => P_contrib 4 e (fun _ => 1) 0)).sum :=
  ⟨aggregate_skips_only_out_of_range_entries.1 [unitSquareNoBC] [List.replicate 16 1] 4
      (by decide) (by decide),
   aggregate_skips_only_out_of_range_entries.2 [unitSquareNoBC] (fun _ _ => 1) 4 0⟩

lemma H_entry_symm (T : GaussTables) (e : Element) (k : ℚ) (invJ0 : Mat2) (i j : Fin 4) :
    H_entry T e k invJ0 i j = H_entry T e k invJ0 j i := by
  unfold H_entry
  have h : (fun xi eta => calculate_H_integrand e k i j xi eta invJ0) =
      (fun xi eta => calculate_H_integrand e k j i xi eta invJ0) := by
    funext xi eta
    simp only [calculate_H_integrand]
    ring
  rw [h]

lemma integrate_Hbc_edge_symm (T : GaussTables) (sqrtQ : ℚ → ℚ) (n1 n2 : Node) (alpha : ℚ)
    (i j : Fin 2) :
    integrate_Hbc_on_edge T sqrtQ n1 n2 alpha i j =
      integrate_Hbc_on_edge T sqrtQ n1 n2 alpha j i := by
  have hg : ((get_points T 2).zip (get_weights T 2)) = [(-T.g2, 1), (T.g2, 1)] := rfl
  simp only [integrate_Hbc_on_edge, hg, List.foldl]
  ring

lemma Hbc_step_symm (T : GaussTables) (sqrtQ : ℚ → ℚ) (alpha : ℚ) (e : Element)
    (acc : Fin 4 → Fin 4 → ℚ) (edge : Fin 4) (hacc : ∀ p q, acc p q = acc q p) (p q : Fin 4) :
    calculate_local_Hbc_step T sqrtQ alpha e acc edge p q =
      calculate_local_Hbc_step T sqrtQ alpha e acc edge q p := by
  simp only [calculate_local_Hbc_step]
  by_cases hb : ((e.nodes edge).BC && (e.nodes (edge + 1)).BC) = true
  · rw [if_pos hb, hacc p q]
    congr 1
    split_ifs <;>
      first
        | rfl
        | (exact integrate_Hbc_edge_symm T sqrtQ _ _ alpha _ _)
  · rw [if_neg hb]
    exact hacc p q

lemma Hbc_fold_symm (T : GaussTables) (sqrtQ : ℚ → ℚ) (alpha : ℚ) (e : Element) :
    ∀ (l : List (Fin 4)) (acc : Fin 4 → Fin 4 → ℚ), (∀ p q, acc p q = acc q p) →
      ∀ p q, (l.foldl (calculate_local_Hbc_step T sqrtQ alpha e) acc) p q =
        (l.foldl (calculate_local_Hbc_step T sqrtQ alpha e) acc) q p := by
  intro l
  induction l with
  | nil => intro acc hacc p q; exact hacc p q
  | cons edge l ih =>
    intro acc hacc p q
    rw [List.foldl_cons]
    exact ih _ (Hbc_step_symm T sqrtQ alpha e acc edge hacc) p q

lemma local_Hbc_symm (T : GaussTables) (sqrtQ : ℚ → ℚ) (alpha : ℚ) (e : Element) (i j : Fin 4) :
    calculate_local_Hbc_matrix T sqrtQ alpha e i j =
      calculate_local_Hbc_matrix T sqrtQ alpha e j i :=
  Hbc_fold_symm T sqrtQ alpha e (List.finRange 4) (fun _ _ => 0) (fun _ _ => rfl) i j

lemma local_H_getD_symm (T : GaussTables) (sqrtQ : ℚ → ℚ) (e : Element)
    (k alpha : ℚ) (invJ0 : Mat2) (i j : Fin 4) :
    (local_H_with_Hbc T sqrtQ e k alpha invJ0).getD (4 * i.val + j.val) 0 =
      (local_H_with_Hbc T sqrtQ e k alpha invJ0).getD (4 * j.val + i.val) 0 := by
  rw [local_H_getD, local_H_getD, H_entry_symm, local_Hbc_symm]

lemma zip_self_map (grid : List Element) (f : Element → List ℚ) :
    grid.zip (grid.map f) = grid.map (fun e => (e, f e)) := by
  induction grid with
  | nil => rfl
  | cons a l ih => simp [ih]

lemma elem_contrib_symm (n : ℕ) (e : Element) (Hl : List ℚ)
    (hsym : ∀ i j : Fin 4, Hl.getD (4 * i.val + j.val) 0 = Hl.getD (4 * j.val + i.val) 0)
    (r c : ℕ) : elem_contrib n e Hl r c = elem_contrib n e Hl c r := by
  rw [elem_contrib, elem_contrib, Finset.sum_comm]
  apply Finset.sum_congr rfl
  intro i _
  apply Finset.sum_congr rfl
  intro j _
  rw [hsym j i]
  exact if_congr (by tauto) rfl rfl

lemma local_H_length (T : GaussTables) (sqrtQ : ℚ → ℚ) (e : Element)
    (k alpha : ℚ) (invJ0 : Mat2) : (local_H_with_Hbc T sqrtQ e k alpha invJ0).length = 16 := rfl

/-- C6: the local matrix stored by `calculate_Hbc_matrix` is symmetric (entry
`i*4+j` equals entry `j*4+i`: the conductivity integrand is symmetric in
`(i, j)` and the Hbc edge blocks are symmetric), and when every `ID` entry is
within `[0, nodes_num)` the global matrix assembled from those local matrices
exists and is symmetric. -/
theorem local_and_global_H_symmetric :
    (∀ (T : GaussTables) (sqrtQ : ℚ → ℚ) (e : Element) (k alpha : ℚ) (invJ0 : Mat2)
      (i j : Fin 4),
      (local_H_with_Hbc T sqrtQ e k alpha invJ0).getD (4 * i.val + j.val) 0 =
        (local_H_with_Hbc T sqrtQ e k alpha invJ0).getD (4 * j.val + i.val) 0) ∧
    (∀ (T : GaussTables) (sqrtQ : ℚ → ℚ) (grid : List Element) (k alpha : ℚ) (invJ0 : Mat2)
      (n : ℕ), (∀ e ∈ grid, ∀ i : Fin 4, e.ID i < n) →
      ∃ G, aggregate_Hbc_matrix grid (calculate_Hbc_matrix T sqrtQ grid k alpha invJ0) n =
        some G ∧ ∀ r c, G r c = G c r) := by
  refine ⟨local_H_getD_symm, ?_⟩
  intro T sqrtQ grid k alpha invJ0 n _
  refine ⟨_, aggregate_Hbc_some grid (calculate_Hbc_matrix T sqrtQ grid k alpha invJ0) n
    (by rw [calculate_Hbc_matrix, List.length_map])
    (fun l hl => by
      rw [calculate_Hbc_matrix] at hl
      obtain ⟨e, _, rfl⟩ := List.mem_map.mp hl
      exact local_H_length T sqrtQ e k alpha invJ0), ?_⟩
  intro r c
  have hz : grid.zip (calculate_Hbc_matrix T sqrtQ grid k alpha invJ0) =
      grid.map (fun e => (e, local_H_with_Hbc T sqrtQ e k alpha invJ0)) :=
    zip_self_map grid _
  rw [hz, List.map_map, List.map_map]
  apply congrArg
  apply List.map_congr_left
  intro e _
  exact elem_contrib_symm n e _ (local_H_getD_symm T sqrtQ e k alpha invJ0) r c

theorem local_and_global_H_symmetric_witness :
    ((local_H_with_Hbc trivialTables sqrt_one unitSquareNoBC 1 1 ⟨0, 0, 0, 0⟩).getD
        (4 * (0 : Fin 4).val + (1 : Fin 4).val) 0 =
      (local_H_with_Hbc trivialTables sqrt_one unitSquareNoBC 1 1 ⟨0, 0, 0, 0⟩).getD
        (4 * (1 : Fin 4).val + (0 : Fin 4).val) 0) ∧
    (∃ G, aggregate_Hbc_matrix [unitSquareNoBC]
        (calculate_Hbc_matrix trivialTables sqrt_one [unitSquareNoBC] 1 1 ⟨0, 0, 0, 0⟩) 4 =
          some G ∧ ∀ r c, G r c = G c r) :=
  ⟨local_and_global_H_symmetric.1 trivialTables sqrt_one unitSquareNoBC 1 1 ⟨0, 0, 0, 0⟩ 0 1,
   local_and_global_H_symmetric.2 trivialTables sqrt_one [unitSquareNoBC] 1 1 ⟨0, 0, 0, 0⟩ 4
     (by decide)⟩

/-- C10: with the rows of length 4 that the `FEMSolver` constructor put into
`local_H_matrices`, `aggregate_Hbc_matrix` reads past the end of the first
element's row (flat index `1*4+0 = 4`) as soon as the in-range `ID` guard
passes — the aggregation is an out-of-bounds access; after
`calculate_Hbc_matrix` has stored one 16-entry row per element, every read is
in bounds and the aggregation produces a matrix. -/
theorem aggregate_out_of_bounds_before_calculate (grid : List Element) (n : ℕ)
    (hne : grid ≠ []) (hID : ∀ e ∈ grid, ∀ i : Fin 4, e.ID i < n) :
    aggregate_Hbc_matrix grid (constructor_local_H_matrices grid) n = none ∧
    (∀ (T : GaussTables) (sqrtQ : ℚ → ℚ) (k alpha : ℚ) (invJ0 : Mat2),
      ∃ G, aggregate_Hbc_matrix grid (calculate_Hbc_matrix T sqrtQ grid k alpha invJ0) n =
        some G) := by
  constructor
  · obtain ⟨e, es, rfl⟩ : ∃ e es, grid = e :: es := by
      cases grid with
      | nil => exact absurd rfl hne
      | cons a l => exact ⟨a, l, rfl⟩
    have h0 : e.ID 0 < n := hID e (by simp) 0
    have h1 : e.ID 1 < n := hID e (by simp) 1
    have hsc : scatter_element n e (List.replicate 4 0) (fun _ _ => 0) = none := by
      rw [scatter_element, pairs4_eq]
      simp [List.foldlM, h0, h1]
    rw [constructor_local_H_matrices, List.length_cons, List.replicate_succ,
      aggregate_Hbc_matrix, aggregate_Hbc_go, hsc]
    rfl
  · intro T sqrtQ k alpha invJ0
    exact ⟨_, aggregate_Hbc_some grid _ n
      (by rw [calculate_Hbc_matrix, List.length_map])
      (fun l hl => by
        rw [calculate_Hbc_matrix] at hl
        obtain ⟨e, _, rfl⟩ := List.mem_map.mp hl
        exact local_H_length T sqrtQ e k alpha invJ0)⟩

theorem aggregate_out_of_bounds_before_calculate_witness :
    aggregate_Hbc_matrix [unitSquareNoBC] (constructor_local_H_matrices [unitSquareNoBC]) 4 =
      none ∧
    (∀ (T : GaussTables) (sqrtQ : ℚ → ℚ) (k alpha : ℚ) (invJ0 : Mat2),
      ∃ G, aggregate_Hbc_matrix [unitSquareNoBC]
        (calculate_Hbc_matrix T sqrtQ [unitSquareNoBC] k alpha invJ0) 4 = some G) :=
  aggregate_out_of_bounds_before_calculate [unitSquareNoBC] 4 (by simp) (by decide)

lemma read_scalars_ok (g : GlobalData) (ts : List ℚ) (h14 : 14 ≤ ts.length) :
    (read_scalars g ts).2 = true := by simp [read_scalars, h14]

lemma create_nil_none : create_elements_from_nodes ([] : List (ℚ × ℚ)) = none := by
  rw [create_elements_from_nodes, create_go]
  norm_num [USIZE]

lemma create_one_none : create_elements_from_nodes [((0 : ℚ), (0 : ℚ))] = none := by
  rw [create_elements_from_nodes, create_go]
  norm_num [USIZE]

lemma create_two_none : create_elements_from_nodes [((0 : ℚ), (0 : ℚ)), (1, 0)] = none := by
  rw [create_elements_from_nodes, create_go]
  norm_num [USIZE]

lemma create_three_empty :
    create_elements_from_nodes [((0 : ℚ), (0 : ℚ)), (1, 0), (1, 1)] = some [] := by
  rw [create_elements_from_nodes, create_go]
  norm_num [USIZE]

lemma create_four_some :
    create_elements_from_nodes [((0 : ℚ), (0 : ℚ)), (1, 0), (1, 1), (0, 1)] =
      some [⟨(0, 0), (1, 0), (1, 1), (0, 1)⟩] := by
  rw [create_elements_from_nodes]
  norm_num [USIZE]
  rw [create_go]
  norm_num
  rw [create_go]
  norm_num

lemma create_seven_some :
    create_elements_from_nodes
        [((0 : ℚ), (0 : ℚ)), (1, 0), (1, 1), (0, 1), (2, 2), (3, 2), (3, 3)] =
      some [⟨(0, 0), (1, 0), (1, 1), (0, 1)⟩] := by
  rw [create_elements_from_nodes]
  norm_num [USIZE]
  rw [create_go]
  norm_num
  rw [create_go]
  norm_num

lemma read_scalars_keeps_nodes (g : GlobalData) (ts : List ℚ) :
    (read_scalars g ts).1.nodes_xy = g.nodes_xy ∧ (read_scalars g ts).1.elements = g.elements :=
  ⟨rfl, rfl⟩

lemma read_scalars_time (g : GlobalData) (ts : List ℚ) :
    (read_scalars g ts).1.simulation_time = ts.getD 0 0 := rfl

lemma read_file_abort_neg_time (g : GlobalData) (ts : List ℚ)
    (lines : List (Option (ℚ × ℚ))) (h14 : 14 ≤ ts.length)
    (hb : (read_scalars g ts).1.simulation_time < 0) :
    read_file g ts lines = some ((read_scalars g ts).1, true) := by
  have hok : (read_scalars g ts).2 = true := read_scalars_ok g ts h14
  rw [read_file, hok, if_neg (by decide : ¬((!true) = true))]
  rw [if_pos hb]

lemma read_file_abort_invalid (g : GlobalData) (ts : List ℚ)
    (lines : List (Option (ℚ × ℚ))) (h14 : 14 ≤ ts.length)
    (hb : scalar_data_invalid (read_scalars g ts).1 = true)
    (ht : ¬ (read_scalars g ts).1.simulation_time < 0) :
    read_file g ts lines = some ((read_scalars g ts).1, true) := by
  have hok : (read_scalars g ts).2 = true := read_scalars_ok g ts h14
  rw [read_file, hok, if_neg (by decide : ¬((!true) = true))]
  rw [if_neg ht]
  rw [if_pos hb]

lemma read_file_success_goodCoords (t1 t2 t3 t4 t5 t6 t7 t8 t9 t10 t11 t12 t13 t14 : ℚ)
    (h1 : ¬ (t1 < 0))
    (h2 : scalar_data_invalid
      ⟨t1, t2, t3, t4, t5, t6, t7, t8, t9, t10, t11, t12, t13, t14, [], []⟩ = false) :
    read_file GlobalData.init [t1, t2, t3, t4, t5, t6, t7, t8, t9, t10, t11, t12, t13, t14]
        goodCoords4 =
      some (⟨t1, t2, t3, t4, t5, t6, t7, t8, t9, t10, t11, t12, t13, t14,
        [(0, 0), (1, 0), (1, 1), (0, 1)], [⟨(0, 0), (1, 0), (1, 1), (0, 1)⟩]⟩, false) := by
  have hok : (read_scalars GlobalData.init
      [t1, t2, t3, t4, t5, t6, t7, t8, t9, t10, t11, t12, t13, t14]).2 = true := rfl
  rw [read_file, hok, if_neg (by decide : ¬((!true) = true))]
  rw [show (read_scalars GlobalData.init
      [t1, t2, t3, t4, t5, t6, t7, t8, t9, t10, t11, t12, t13, t14]).1 =
    (⟨t1, t2, t3, t4, t5, t6, t7, t8, t9, t10, t11, t12, t13, t14, [], []⟩ : GlobalData)
    from rfl]
  rw [if_neg (show ¬ (⟨t1, t2, t3, t4, t5, t6, t7, t8, t9, t10, t11, t12, t13, t14, [], []⟩ :
    GlobalData).simulation_time < 0 from h1)]
  rw [if_neg (show ¬ scalar_data_invalid
      (⟨t1, t2, t3, t4, t5, t6, t7, t8, t9, t10, t11, t12, t13, t14, [], []⟩ : GlobalData) =
      true from by simp [h2])]
  rw [show read_nodes
      (⟨t1, t2, t3, t4, t5, t6, t7, t8, t9, t10, t11, t12, t13, t14, [], []⟩ : GlobalData)
      goodCoords4 =
    (⟨t1, t2, t3, t4, t5, t6, t7, t8, t9, t10, t11, t12, t13, t14,
      [(0, 0), (1, 0), (1, 1), (0, 1)], []⟩, true) from rfl]
  rw [if_neg (by decide : ¬((!true) = true))]
  rw [show ((⟨t1, t2, t3, t4, t5, t6, t7, t8, t9, t10, t11, t12, t13, t14,
      [(0, 0), (1, 0), (1, 1), (0, 1)], []⟩ : GlobalData), true).1.nodes_xy =
    [((0 : ℚ), (0 : ℚ)), (1, 0), (1, 1), (0, 1)] from rfl, create_four_some]
  rfl

/-- C9: grouping nodes four at a time works as claimed for three or more
coordinate records (`floor(n/4)` elements built from consecutive groups of
four, trailing records dropped), but for zero, one or two records the
`size_t` loop bound `nodes_xy.size() - 3` wraps around, the loop runs, and
`nodes_xy` is read out of bounds — not the zero-element result the claim
states for every `n < 4`. -/
theorem create_elements_groups_of_four_and_underflow :
    create_elements_from_nodes ([] : List (ℚ × ℚ)) = none ∧
    create_elements_from_nodes [((0 : ℚ), (0 : ℚ))] = none ∧
    create_elements_from_nodes [((0 : ℚ), (0 : ℚ)), (1, 0)] = none ∧
    create_elements_from_nodes [((0 : ℚ), (0 : ℚ)), (1, 0), (1, 1)] = some [] ∧
    create_elements_from_nodes [((0 : ℚ), (0 : ℚ)), (1, 0), (1, 1), (0, 1)] =
      some [⟨(0, 0), (1, 0), (1, 1), (0, 1)⟩] ∧
    create_elements_from_nodes
        [((0 : ℚ), (0 : ℚ)), (1, 0), (1, 1), (0, 1), (2, 2), (3, 2), (3, 3)] =
      some [⟨(0, 0), (1, 0), (1, 1), (0, 1)⟩] :=
  ⟨create_nil_none, create_one_none, create_two_none, create_three_empty,
   create_four_some, create_seven_some⟩

/-- C8 counterexample: with a data file whose second value (the time step) is
`-1`, `read_file` reports a configuration error, yet the `GlobalData` state
afterwards is not clean — the partially-read parameter values (time horizon
5, step `-1`) remain stored, contradicting the claim that no partially-read
parameter values remain after a failed `read_file`. -/
theorem read_file_partial_state_counterexample :
    ∃ g, read_file GlobalData.init [5, -1, 1, 1, 1, 1, 1, 1, 1, 1, 1, 1, 1, 1] goodCoords4 =
        some (g, true) ∧ g.simulation_time = 5 ∧ g.simulation_step_time = -1 ∧
        g ≠ GlobalData.init :=
  ⟨⟨5, -1, 1, 1, 1, 1, 1, 1, 1, 1, 1, 1, 1, 1, [], []⟩, rfl, rfl, rfl, by
    intro h
    have := congrArg GlobalData.simulation_time h
    norm_num [GlobalData.init] at this⟩

/-- C8 amended: when the scalar validation fails, `read_file` reports the
error and aborts the rest of the load (no nodes are read, no elements are
created — `nodes_xy` and `elements` keep their prior values), but the scalar
parameter values read so far remain stored in the `GlobalData` state (the
first token is already in `simulation_time`). -/
theorem read_file_error_keeps_partial_scalars (g : GlobalData) (ts : List ℚ)
    (lines : List (Option (ℚ × ℚ))) (h14 : 14 ≤ ts.length)
    (hbad : (read_scalars g ts).1.simulation_time < 0 ∨
      scalar_data_invalid (read_scalars g ts).1 = true) :
    read_file g ts lines = some ((read_scalars g ts).1, true) ∧
    (read_scalars g ts).1.simulation_time = ts.getD 0 0 ∧
    (read_scalars g ts).1.nodes_xy = g.nodes_xy ∧
    (read_scalars g ts).1.elements = g.elements := by
  refine ⟨?_, read_scalars_time g ts, (read_scalars_keeps_nodes g ts).1,
    (read_scalars_keeps_nodes g ts).2⟩
  rcases hbad with hb | hb
  · exact read_file_abort_neg_time g ts lines h14 hb
  · by_cases ht : (read_scalars g ts).1.simulation_time < 0
    · exact read_file_abort_neg_time g ts lines h14 ht
    · exact read_file_abort_invalid g ts lines h14 hb ht

theorem read_file_error_keeps_partial_scalars_witness :
    read_file GlobalData.init [5, -1, 1, 1, 1, 1, 1, 1, 1, 1, 1, 1, 1, 1] goodCoords4 =
      some ((read_scalars GlobalData.init [5, -1, 1, 1, 1, 1, 1, 1, 1, 1, 1, 1, 1, 1]).1,
        true) ∧
    (read_scalars GlobalData.init
        [5, -1, 1, 1, 1, 1, 1, 1, 1, 1, 1, 1, 1, 1]).1.simulation_time =
      ([5, -1, 1, 1, 1, 1, 1, 1, 1, 1, 1, 1, 1, 1] : List ℚ).getD 0 0 ∧
    (read_scalars GlobalData.init [5, -1, 1, 1, 1, 1, 1, 1, 1, 1, 1, 1, 1, 1]).1.nodes_xy =
      GlobalData.init.nodes_xy ∧
    (read_scalars GlobalData.init [5, -1, 1, 1, 1, 1, 1, 1, 1, 1, 1, 1, 1, 1]).1.elements =
      GlobalData.init.elements :=
  read_file_error_keeps_partial_scalars GlobalData.init _ goodCoords4 (by norm_num)
    (Or.inr (by norm_num [read_scalars, scalar_data_invalid]))

/-- C7 counterexample: a data file with ambient temperature `-1` and initial
temperature `-2` (all other scalars valid) loads without any configuration
error — the positivity check at GlobalData.cpp:35-36 does not cover `tot` or
`initial_temp`, so the claim that loading fails whenever those are not
strictly positive is false. -/
theorem ambient_and_initial_temp_not_validated :
    ∃ g, read_file GlobalData.init [0, 1, 1, 1, -1, -2, 1, 1, 1, 1, 1, 1, 1, 1] goodCoords4 =
        some (g, false) ∧ g.tot = -1 ∧ g.initial_temp = -2 ∧ g.tot ≤ 0 ∧ g.initial_temp ≤ 0 :=
  ⟨_, read_file_success_goodCoords 0 1 1 1 (-1) (-2) 1 1 1 1 1 1 1 1 (by norm_num)
      (by norm_num [scalar_data_invalid]),
   rfl, rfl, by norm_num, by norm_num⟩

/-- C7 amended: for a fourteen-token data file and a well-formed coordinate
file, loading reports a configuration error exactly when the time horizon is
negative or one of time step, conductivity, alpha, density, specific heat,
nN, nE, nH, nW, height, width is not strictly positive; the ambient
temperature (token 5) and initial temperature (token 6) are not validated. -/
theorem scalar_validation_checks_exactly_eleven
    (t1 t2 t3 t4 t5 t6 t7 t8 t9 t10 t11 t12 t13 t14 : ℚ) :
    ∃ g, read_file GlobalData.init [t1, t2, t3, t4, t5, t6, t7, t8, t9, t10, t11, t12, t13, t14]
        goodCoords4 =
      some (g, decide (t1 < 0 ∨ t2 ≤ 0 ∨ t3 ≤ 0 ∨ t4 ≤ 0 ∨ t7 ≤ 0 ∨ t8 ≤ 0 ∨ t9 ≤ 0 ∨
        t10 ≤ 0 ∨ t11 ≤ 0 ∨ t12 ≤ 0 ∨ t13 ≤ 0 ∨ t14 ≤ 0)) := by
  by_cases h1 : t1 < 0
  · refine ⟨(read_scalars GlobalData.init
      [t1, t2, t3, t4, t5, t6, t7, t8, t9, t10, t11, t12, t13, t14]).1, ?_⟩
    rw [read_file_abort_neg_time _ _ _ (by norm_num) (show (read_scalars GlobalData.init
      [t1, t2, t3, t4, t5, t6, t7, t8, t9, t10, t11, t12, t13, t14]).1.simulation_time < 0
      from h1)]
    have hd : decide (t1 < 0 ∨ t2 ≤ 0 ∨ t3 ≤ 0 ∨ t4 ≤ 0 ∨ t7 ≤ 0 ∨ t8 ≤ 0 ∨ t9 ≤ 0 ∨
        t10 ≤ 0 ∨ t11 ≤ 0 ∨ t12 ≤ 0 ∨ t13 ≤ 0 ∨ t14 ≤ 0) = true :=
      decide_eq_true (Or.inl h1)
    rw [hd]
  · by_cases h2 : scalar_data_invalid
      (⟨t1, t2, t3, t4, t5, t6, t7, t8, t9, t10, t11, t12, t13, t14, [], []⟩ : GlobalData) = true
    · refine ⟨(read_scalars GlobalData.init
        [t1, t2, t3, t4, t5, t6, t7, t8, t9, t10, t11, t12, t13, t14]).1, ?_⟩
      rw [read_file_abort_invalid _ _ _ (by norm_num)
        (show scalar_data_invalid (read_scalars GlobalData.init
          [t1, t2, t3, t4, t5, t6, t7, t8, t9, t10, t11, t12, t13, t14]).1 = true from h2)
        (show ¬ (read_scalars GlobalData.init
          [t1, t2, t3, t4, t5, t6, t7, t8, t9, t10, t11, t12, t13, t14]).1.simulation_time < 0
          from h1)]
      have hrest : t2 ≤ 0 ∨ t3 ≤ 0 ∨ t4 ≤ 0 ∨ t7 ≤ 0 ∨ t8 ≤ 0 ∨ t9 ≤ 0 ∨
          t10 ≤ 0 ∨ t11 ≤ 0 ∨ t12 ≤ 0 ∨ t13 ≤ 0 ∨ t14 ≤ 0 := by
        have hh := h2
        simp [scalar_data_invalid] at hh
        tauto
      have hd : decide (t1 < 0 ∨ t2 ≤ 0 ∨ t3 ≤ 0 ∨ t4 ≤ 0 ∨ t7 ≤ 0 ∨ t8 ≤ 0 ∨ t9 ≤ 0 ∨
          t10 ≤ 0 ∨ t11 ≤ 0 ∨ t12 ≤ 0 ∨ t13 ≤ 0 ∨ t14 ≤ 0) = true :=
        decide_eq_true (Or.inr hrest)
      rw [hd]
    · have h2f : scalar_data_invalid
        (⟨t1, t2, t3, t4, t5, t6, t7, t8, t9, t10, t11, t12, t13, t14, [], []⟩ : GlobalData) =
          false := by
        revert h2
        cases scalar_data_invalid
          (⟨t1, t2, t3, t4, t5, t6, t7, t8, t9, t10, t11, t12, t13, t14, [], []⟩ : GlobalData) <;>
          simp
      have hrest : ¬ (t2 ≤ 0 ∨ t3 ≤ 0 ∨ t4 ≤ 0 ∨ t7 ≤ 0 ∨ t8 ≤ 0 ∨ t9 ≤ 0 ∨
          t10 ≤ 0 ∨ t11 ≤ 0 ∨ t12 ≤ 0 ∨ t13 ≤ 0 ∨ t14 ≤ 0) := by
        intro hc
        rw [show scalar_data_invalid
          (⟨t1, t2, t3, t4, t5, t6, t7, t8, t9, t10, t11, t12, t13, t14, [], []⟩ : GlobalData) =
            true from by simp [scalar_data_invalid]; tauto] at h2f
        exact Bool.noConfusion h2f
      have hd : decide (t1 < 0 ∨ t2 ≤ 0 ∨ t3 ≤ 0 ∨ t4 ≤ 0 ∨ t7 ≤ 0 ∨ t8 ≤ 0 ∨ t9 ≤ 0 ∨
          t10 ≤ 0 ∨ t11 ≤ 0 ∨ t12 ≤ 0 ∨ t13 ≤ 0 ∨ t14 ≤ 0) = false :=
        decide_eq_false (fun hc => hc.elim h1 hrest)
      refine ⟨⟨t1, t2, t3, t4, t5, t6, t7, t8, t9, t10, t11, t12, t13, t14,
        [(0, 0), (1, 0), (1, 1), (0, 1)], [⟨(0, 0), (1, 0), (1, 1), (0, 1)⟩]⟩, ?_⟩
      rw [read_file_success_goodCoords t1 t2 t3 t4 t5 t6 t7 t8 t9 t10 t11 t12 t13 t14 h1 h2f,
        hd]

end FEM
